import Mathlib

/-!
Shallow embedding of the quay port-discovery/reconciliation engine and its
session state machine, together with theorems settling the specification
claims about it.  Pure functions of the Rust source are translated into
executable Lean definitions; command execution is modelled by passing the
command's outcome as an explicit value.  Machine integers (`u16`, `u32`)
are modelled as `Nat` with their bounds enforced exactly where the source
enforces them (`str::parse` range checks, wrap-around on `+ 1`).
-/

/-! ## Decimal parsing (model of Rust `str::parse::<uN>`) -/

/-- Value of a nonempty all-digit character list, `none` on any non-digit. -/
def digitsVal (acc : Nat) : List Char → Option Nat
  | [] => some acc
  | c :: cs => if c.isDigit then digitsVal (acc * 10 + (c.toNat - 48)) cs else none

/-- Model of Rust's unsigned decimal integer syntax: an optional leading
`+` followed by one or more ASCII digits (no bound applied here). -/
def parseDecNat? (s : String) : Option Nat :=
  match s.data with
  | [] => none
  | '+' :: rest => if rest.isEmpty then none else digitsVal 0 rest
  | l => digitsVal 0 l

/-- Rust `str::parse::<uN>`: decimal syntax plus the type's range bound. -/
def parseBounded? (bound : Nat) (s : String) : Option Nat :=
  (parseDecNat? s).bind fun n => if n ≤ bound then some n else none

/-- Rust `str::parse::<u16>`. -/
def parseU16? : String → Option Nat := parseBounded? 65535

/-- Rust `str::parse::<u32>`. -/
def parseU32? : String → Option Nat := parseBounded? 4294967295

/-! ## Data model (src/port/mod.rs) -/

/-- Origin of a discovered port record (enum `PortSource`). -/
inductive PortSource where
  | Local
  | Ssh
  | Docker
deriving DecidableEq, Repr, BEq

/-- One observed listening endpoint (struct `PortEntry`).  `u16`/`u32`
fields are `Nat` here; parsers only ever store parsed-in-range values. -/
structure PortEntry where
  source : PortSource
  local_port : Nat
  remote_host : Option String
  remote_port : Option Nat
  process_name : String
  pid : Option Nat
  container_id : Option String
  container_name : Option String
  ssh_host : Option String
  is_open : Bool
  is_loopback : Bool
deriving DecidableEq, Repr

/-! ## Dedup (src/port/mod.rs, `dedup_entries`) -/

/-- Ports claimed by any non-Local record (the `non_local_ports` set). -/
def nonLocalPorts (entries : List PortEntry) : List Nat :=
  (entries.filter (fun e => decide (e.source ≠ PortSource.Local))).map (fun e => e.local_port)

/-- The `dedup_entries`: retain every record that is non-Local or whose port is
not claimed by a non-Local record. -/
def dedup_entries (entries : List PortEntry) : List PortEntry :=
  let nlp := nonLocalPorts entries
  entries.filter (fun e =>
    decide (e.source ≠ PortSource.Local) || decide (e.local_port ∉ nlp))

/-- Entry with the given source and port, all optional data absent;
mirrors the `make_entry` helper of the source's own tests. -/
def make_entry (source : PortSource) (local_port : Nat) : PortEntry :=
  ⟨source, local_port, none, none, "", none, none, none, none, false, false⟩

theorem mem_of_mem_dedup {e : PortEntry} {l : List PortEntry}
    (h : e ∈ dedup_entries l) : e ∈ l := by
  have := List.mem_filter.mp h
  exact this.1

theorem port_mem_nonLocalPorts {e : PortEntry} {l : List PortEntry}
    (he : e ∈ l) (hs : e.source ≠ PortSource.Local) :
    e.local_port ∈ nonLocalPorts l := by
  unfold nonLocalPorts
  exact List.mem_map.mpr ⟨e, List.mem_filter.mpr ⟨he, by simpa using hs⟩, rfl⟩

/-- C1: in every `dedup_entries` result no two records share a `local_port`
with one of source `Local` and the other non-`Local`; equivalently, a
`Local` record whose port is claimed by any SSH or Docker record of the
input is dropped. -/
theorem c1_dedup_local_suppressed :
    (∀ (l : List PortEntry) (a b : PortEntry),
      a ∈ dedup_entries l → b ∈ dedup_entries l →
      a.local_port = b.local_port → a.source = PortSource.Local →
      b.source = PortSource.Local) ∧
    (∀ (l : List PortEntry) (e : PortEntry),
      e ∈ l → e.source = PortSource.Local → e.local_port ∈ nonLocalPorts l →
      e ∉ dedup_entries l) := by
  constructor
  · intro l a b ha hb hport hasrc
    by_contra hbsrc
    have hbl : b ∈ l := mem_of_mem_dedup hb
    have hmem : b.local_port ∈ nonLocalPorts l := port_mem_nonLocalPorts hbl hbsrc
    have hcond := (List.mem_filter.mp ha).2
    simp only [Bool.or_eq_true, decide_eq_true_eq] at hcond
    rcases hcond with h | h
    · exact h hasrc
    · exact h (hport ▸ hmem)
  · intro l e hel hsrc hport hmem
    have hcond := (List.mem_filter.mp hmem).2
    simp only [Bool.or_eq_true, decide_eq_true_eq] at hcond
    rcases hcond with h | h
    · exact h hsrc
    · exact h hport

/-- Witness for C1 at concrete inputs: a lone Local record is kept, and a
Local record is dropped when an SSH record claims the same port. -/
theorem c1_dedup_local_suppressed_witness :
    (make_entry PortSource.Local 3000).source = PortSource.Local ∧
    make_entry PortSource.Local 9000 ∉
      dedup_entries [make_entry PortSource.Local 9000, make_entry PortSource.Ssh 9000] :=
  ⟨c1_dedup_local_suppressed.1 [make_entry PortSource.Local 3000]
      (make_entry PortSource.Local 3000) (make_entry PortSource.Local 3000)
      (by decide) (by decide) rfl rfl,
   c1_dedup_local_suppressed.2
      [make_entry PortSource.Local 9000, make_entry PortSource.Ssh 9000]
      (make_entry PortSource.Local 9000) (by decide) rfl (by decide)⟩

/-! ## Forward-draft field cycling (src/app.rs, src/event.rs) -/

/-- The four forward-draft fields (enum `ForwardField`). -/
inductive ForwardField where
  | LocalPort
  | RemoteHost
  | RemotePort
  | SshHost
deriving DecidableEq, Repr, BEq, Fintype

/-- The `ForwardField::next`. -/
def ForwardField.next : ForwardField → ForwardField
  | ForwardField.LocalPort => ForwardField.RemoteHost
  | ForwardField.RemoteHost => ForwardField.RemotePort
  | ForwardField.RemotePort => ForwardField.SshHost
  | ForwardField.SshHost => ForwardField.LocalPort

/-- The `ForwardField::prev`. -/
def ForwardField.prev : ForwardField → ForwardField
  | ForwardField.LocalPort => ForwardField.SshHost
  | ForwardField.RemoteHost => ForwardField.LocalPort
  | ForwardField.RemotePort => ForwardField.RemoteHost
  | ForwardField.SshHost => ForwardField.RemotePort

/-- The `is_locked` closure of `handle_forward_key`: the SSH-host field is
locked in remote mode and the remote-host field in docker-target mode. -/
def isLocked (remote_mode docker_mode : Bool) (field : ForwardField) : Bool :=
  (remote_mode && field == ForwardField.SshHost) ||
    (docker_mode && field == ForwardField.RemoteHost)

/-- The Tab/Down transition of `handle_forward_key`: advance, then skip a
locked field at most twice. -/
def forwardStep (remote_mode docker_mode : Bool) (f : ForwardField) : ForwardField :=
  let f1 := f.next
  let f2 := if isLocked remote_mode docker_mode f1 then f1.next else f1
  if isLocked remote_mode docker_mode f2 then f2.next else f2

/-- The BackTab/Up transition of `handle_forward_key`. -/
def backwardStep (remote_mode docker_mode : Bool) (f : ForwardField) : ForwardField :=
  let f1 := f.prev
  let f2 := if isLocked remote_mode docker_mode f1 then f1.prev else f1
  if isLocked remote_mode docker_mode f2 then f2.prev else f2

theorem forwardStep_unlocked :
    ∀ (r d : Bool) (f : ForwardField), isLocked r d f = false →
      isLocked r d (forwardStep r d f) = false := by decide

theorem backwardStep_unlocked :
    ∀ (r d : Bool) (f : ForwardField), isLocked r d f = false →
      isLocked r d (backwardStep r d f) = false := by decide

theorem backward_forward_cancel :
    ∀ (r d : Bool) (f : ForwardField), isLocked r d f = false →
      backwardStep r d (forwardStep r d f) = f := by decide

theorem forwardStep_iter_unlocked (r d : Bool) (n : Nat) (f : ForwardField)
    (h : isLocked r d f = false) :
    isLocked r d ((forwardStep r d)^[n] f) = false := by
  induction n generalizing f with
  | zero => simpa using h
  | succ n ih =>
      rw [Function.iterate_succ_apply]
      exact ih _ (forwardStep_unlocked r d f h)

theorem backwardStep_iter_unlocked (r d : Bool) (n : Nat) (f : ForwardField)
    (h : isLocked r d f = false) :
    isLocked r d ((backwardStep r d)^[n] f) = false := by
  induction n generalizing f with
  | zero => simpa using h
  | succ n ih =>
      rw [Function.iterate_succ_apply]
      exact ih _ (backwardStep_unlocked r d f h)

/-- C7: for every lock configuration and every unlocked starting field,
`n` forward cursor steps followed by `n` backward steps return to the
start, and every intermediate landing field in either direction is
unlocked. -/
theorem c7_cursor_cycle_roundtrip :
    ∀ (r d : Bool) (f : ForwardField) (n : Nat), isLocked r d f = false →
      (backwardStep r d)^[n] ((forwardStep r d)^[n] f) = f ∧
      isLocked r d ((forwardStep r d)^[n] f) = false ∧
      isLocked r d ((backwardStep r d)^[n] f) = false := by
  intro r d f n h
  refine ⟨?_, forwardStep_iter_unlocked r d n f h, backwardStep_iter_unlocked r d n f h⟩
  induction n generalizing f with
  | zero => rfl
  | succ n ih =>
      rw [Function.iterate_succ_apply' (forwardStep r d),
        Function.iterate_succ_apply (backwardStep r d)]
      rw [backward_forward_cancel r d _ (forwardStep_iter_unlocked r d n f h)]
      exact ih f h

/-- Witness for C7: with both locks active, three forward then three
backward steps from the local-port field return to it through unlocked
fields only. -/
theorem c7_cursor_cycle_roundtrip_witness :
    (backwardStep true true)^[3] ((forwardStep true true)^[3] ForwardField.LocalPort) =
      ForwardField.LocalPort ∧
    isLocked true true ((forwardStep true true)^[3] ForwardField.LocalPort) = false ∧
    isLocked true true ((backwardStep true true)^[3] ForwardField.LocalPort) = false :=
  c7_cursor_cycle_roundtrip true true ForwardField.LocalPort 3 (by decide)

/-! ## Stable sort of the reconciler (src/port/mod.rs, `collect_all`)

Rust's `sort_by_key` is a stable sort; any stable sort is determined by
its key order, so it is embedded as a stable insertion sort. -/

/-- Sort key of `collect_all`: `(!e.is_open, e.local_port)` with Rust's
`false < true` rendered as `0 < 1`. -/
def sortKey (e : PortEntry) : Nat × Nat :=
  ((if e.is_open then 0 else 1), e.local_port)

/-- Lexicographic order on the sort key. -/
def lexLe (p q : Nat × Nat) : Bool :=
  decide (p.1 < q.1 ∨ (p.1 = q.1 ∧ p.2 ≤ q.2))

/-- Key order on entries used by `collect_all`'s sort. -/
def entryLe (a b : PortEntry) : Bool := lexLe (sortKey a) (sortKey b)

/-- Stable insertion: a new element goes after every element ordered at or
below it. -/
def insertSortedBy (le : PortEntry → PortEntry → Bool) (e : PortEntry) :
    List PortEntry → List PortEntry
  | [] => [e]
  | x :: xs => if le x e then x :: insertSortedBy le e xs else e :: x :: xs

/-- Stable insertion sort by the given order. -/
def sortEntriesBy (le : PortEntry → PortEntry → Bool) (l : List PortEntry) :
    List PortEntry :=
  l.foldl (fun acc e => insertSortedBy le e acc) []

/-- The sort of `collect_all`: `entries.sort_by_key(|e| (!e.is_open, e.local_port))`. -/
def sortEntries : List PortEntry → List PortEntry := sortEntriesBy entryLe

theorem lexLe_refl (p : Nat × Nat) : lexLe p p = true := by
  simp [lexLe]

theorem lexLe_total (p q : Nat × Nat) : lexLe p q = true ∨ lexLe q p = true := by
  simp only [lexLe, decide_eq_true_eq]
  omega

theorem lexLe_trans {p q r : Nat × Nat} (h1 : lexLe p q = true)
    (h2 : lexLe q r = true) : lexLe p r = true := by
  simp only [lexLe, decide_eq_true_eq] at h1 h2 ⊢
  omega

/-- Sortedness predicate for the reconciler order. -/
def EntrySorted (l : List PortEntry) : Prop :=
  List.Pairwise (fun a b => entryLe a b = true) l

theorem mem_insertSortedBy {le : PortEntry → PortEntry → Bool} {e y : PortEntry}
    {l : List PortEntry} (h : y ∈ insertSortedBy le e l) : y = e ∨ y ∈ l := by
  induction l with
  | nil => simpa [insertSortedBy] using h
  | cons x xs ih =>
      by_cases hx : le x e = true
      · simp only [insertSortedBy, if_pos hx, List.mem_cons] at h
        rcases h with h | h
        · exact Or.inr (by simp [h])
        · rcases ih h with h' | h'
          · exact Or.inl h'
          · exact Or.inr (List.mem_cons_of_mem _ h')
      · simp only [insertSortedBy, if_neg hx, List.mem_cons] at h
        rcases h with h | h
        · exact Or.inl h
        · exact Or.inr (by simpa using h)

theorem insertSorted_sorted {e : PortEntry} {l : List PortEntry}
    (hs : EntrySorted l) : EntrySorted (insertSortedBy entryLe e l) := by
  induction l with
  | nil => simp [insertSortedBy, EntrySorted]
  | cons x xs ih =>
      rcases hs with _ | ⟨hx, hxs⟩
      by_cases hle : entryLe x e = true
      · rw [insertSortedBy, if_pos hle]
        refine List.Pairwise.cons ?_ (ih hxs)
        intro y hy
        rcases mem_insertSortedBy hy with h | h
        · exact h ▸ hle
        · exact hx y h
      · rw [insertSortedBy, if_neg hle]
        have hex : entryLe e x = true := by
          rcases lexLe_total (sortKey e) (sortKey x) with h | h
          · exact h
          · exact absurd h hle
        refine List.Pairwise.cons ?_ (List.Pairwise.cons hx hxs)
        intro y hy
        rcases List.mem_cons.mp hy with h | h
        · exact h ▸ hex
        · exact lexLe_trans hex (hx y h)

theorem sortFold_sorted (l : List PortEntry) :
    ∀ acc : List PortEntry, EntrySorted acc →
      EntrySorted (l.foldl (fun acc e => insertSortedBy entryLe e acc) acc) := by
  induction l with
  | nil => intro acc h; simpa using h
  | cons e l ih =>
      intro acc h
      exact ih _ (insertSorted_sorted h)

theorem sortEntries_sorted (l : List PortEntry) : EntrySorted (sortEntries l) :=
  sortFold_sorted l [] (by simp [EntrySorted])

/-- Membership in the filtered projection used to state stability. -/
def keyIs (k : Nat × Nat) (e : PortEntry) : Bool := decide (sortKey e = k)

theorem filter_insert_of_ne {k : Nat × Nat} {e : PortEntry} {l : List PortEntry}
    (hk : sortKey e ≠ k) :
    (insertSortedBy entryLe e l).filter (keyIs k) = l.filter (keyIs k) := by
  induction l with
  | nil => simp [insertSortedBy, List.filter, keyIs, hk]
  | cons x xs ih =>
      by_cases hle : entryLe x e = true
      · rw [insertSortedBy, if_pos hle]
        by_cases hx : keyIs k x = true
        · simp [List.filter_cons, hx, ih]
        · simp [List.filter_cons, hx, ih]
      · rw [insertSortedBy, if_neg hle]
        simp [List.filter_cons, keyIs, hk]

theorem filter_head_nil_of_stop {k : Nat × Nat} {e x : PortEntry} {xs : List PortEntry}
    (hs : EntrySorted (x :: xs)) (hle : ¬entryLe x e = true) (hk : sortKey e = k) :
    (x :: xs).filter (keyIs k) = [] := by
  rw [List.filter_eq_nil_iff]
  intro y hy
  simp only [keyIs, decide_eq_true_eq]
  intro hyk
  have hxy : entryLe x y = true := by
    rcases List.mem_cons.mp hy with h | h
    · exact h ▸ lexLe_refl (sortKey x)
    · rcases hs with _ | ⟨hx, _⟩
      exact hx y h
  have : entryLe x e = true := by
    have hkey : sortKey y = sortKey e := by rw [hyk, hk]
    unfold entryLe at hxy ⊢
    rw [← hkey]
    exact hxy
  exact hle this

theorem filter_insert_of_eq {k : Nat × Nat} {e : PortEntry} {l : List PortEntry}
    (hk : sortKey e = k) (hs : EntrySorted l) :
    (insertSortedBy entryLe e l).filter (keyIs k) = l.filter (keyIs k) ++ [e] := by
  induction l with
  | nil => simp [insertSortedBy, List.filter, keyIs, hk]
  | cons x xs ih =>
      by_cases hle : entryLe x e = true
      · rw [insertSortedBy, if_pos hle]
        rcases hs with _ | ⟨hx, hxs⟩
        by_cases hxk : keyIs k x = true
        · simp [List.filter_cons, hxk, ih hxs]
        · simp [List.filter_cons, hxk, ih hxs]
      · rw [insertSortedBy, if_neg hle]
        rw [List.filter_cons, List.filter_cons]
        have hnil : (x :: xs).filter (keyIs k) = [] :=
          filter_head_nil_of_stop hs hle hk
        rw [List.filter_cons] at hnil
        by_cases hxk : keyIs k x = true
        · simp [hxk] at hnil
        · have hxs : List.filter (keyIs k) xs = [] := by simpa [hxk] using hnil
          have hxk' : sortKey x ≠ k := by simpa [keyIs] using hxk
          simp [keyIs, hk, hxk', hxs]

theorem filter_sortFold (k : Nat × Nat) (l : List PortEntry) :
    ∀ acc : List PortEntry, EntrySorted acc →
      (l.foldl (fun acc e => insertSortedBy entryLe e acc) acc).filter (keyIs k) =
        acc.filter (keyIs k) ++ l.filter (keyIs k) := by
  induction l with
  | nil => intro acc _; simp
  | cons e l ih =>
      intro acc hacc
      rw [List.foldl_cons, ih _ (insertSorted_sorted hacc), List.filter_cons]
      by_cases hek : sortKey e = k
      · rw [filter_insert_of_eq hek hacc]
        simp [keyIs, hek]
      · rw [filter_insert_of_ne hek]
        simp [keyIs, hek]

/-- Stability: the subsequence of records with any fixed sort key is
unchanged by the sort. -/
theorem sortEntries_stable (k : Nat × Nat) (l : List PortEntry) :
    (sortEntries l).filter (keyIs k) = l.filter (keyIs k) :=
  by simpa using filter_sortFold k l [] (by simp [EntrySorted])

/-! ## Reconciler (src/port/mod.rs, `collect_entries` / `collect_all`)

Command execution and the concurrent probe join are modelled by passing
the collector outputs and the probe result map as explicit values; the
pure reconciliation on top of them is embedded exactly. -/

/-- Write-back step of `probe_open_ports`: each entry whose port appears
in the probe result map gets its `is_open` overwritten. -/
def probeApply (probe : Nat → Option Bool) (entries : List PortEntry) :
    List PortEntry :=
  entries.map fun e =>
    match probe e.local_port with
    | some b => { e with is_open := b }
    | none => e

/-- The `collect_entries`: concatenate the Local, Docker and SSH collector
outputs, then dedup. -/
def collect_entries (localEntries dockerEntries sshEntries : List PortEntry) :
    List PortEntry :=
  dedup_entries (localEntries ++ dockerEntries ++ sshEntries)

/-- The record list `collect_all` builds before its final sort: the
container-interior listing in docker-target mode, otherwise the deduped
concatenation with probe results applied. -/
def collect_all_unsorted (docker_target : Option String)
    (containerEntries localEntries dockerEntries sshEntries : List PortEntry)
    (probe : Nat → Option Bool) : List PortEntry :=
  match docker_target with
  | some _ => containerEntries
  | none => probeApply probe (collect_entries localEntries dockerEntries sshEntries)

/-- The `collect_all`: the unsorted record list followed by
`sort_by_key(|e| (!e.is_open, e.local_port))`. -/
def collect_all (docker_target : Option String)
    (containerEntries localEntries dockerEntries sshEntries : List PortEntry)
    (probe : Nat → Option Bool) : List PortEntry :=
  sortEntries (collect_all_unsorted docker_target containerEntries
    localEntries dockerEntries sshEntries probe)

theorem entryLe_adjacent {a b : PortEntry} (h : entryLe a b = true) :
    (b.is_open = true → a.is_open = true) ∧
      (a.is_open = b.is_open → a.local_port ≤ b.local_port) := by
  simp only [entryLe, lexLe, sortKey, decide_eq_true_eq] at h
  cases ha : a.is_open <;> cases hb : b.is_open <;>
    simp [ha, hb] at h ⊢ <;> omega

/-- C2: every `collect_all` result — in docker-target mode and in normal
mode alike — is sorted so that adjacent records have non-increasing
`is_open` and, within equal openness, non-decreasing `local_port`; and
the sort is stable: for every key, the subsequence of records with that
(openness, port) key equals the corresponding subsequence of the unsorted
list. -/
theorem c2_collect_all_sorted_stable :
    ∀ (docker_target : Option String)
      (containerEntries localEntries dockerEntries sshEntries : List PortEntry)
      (probe : Nat → Option Bool),
      List.Chain'
        (fun a b => (b.is_open = true → a.is_open = true) ∧
          (a.is_open = b.is_open → a.local_port ≤ b.local_port))
        (collect_all docker_target containerEntries localEntries dockerEntries
          sshEntries probe) ∧
      ∀ k : Nat × Nat,
        (collect_all docker_target containerEntries localEntries dockerEntries
            sshEntries probe).filter (keyIs k) =
          (collect_all_unsorted docker_target containerEntries localEntries
            dockerEntries sshEntries probe).filter (keyIs k) := by
  intro dt ce le de se probe
  constructor
  · have hs := sortEntries_sorted (collect_all_unsorted dt ce le de se probe)
    exact ((hs.imp fun h => entryLe_adjacent h).chain')
  · intro k
    exact sortEntries_stable k (collect_all_unsorted dt ce le de se probe)

/-! ## String utilities (models of the Rust `str` operations used)

These operate on `String.data` character lists; byte indices of the Rust
code coincide with character indices on the ASCII inputs these parsers
handle, and `to_lowercase` is modelled at ASCII precision. -/

/-- Rust `str::split(sep)`: split at every separator, keeping empty pieces. -/
def splitOnChar (sep : Char) : List Char → List (List Char)
  | [] => [[]]
  | c :: rest =>
    let r := splitOnChar sep rest
    if c = sep then [] :: r
    else
      match r with
      | t :: ts => (c :: t) :: ts
      | [] => [[c]]

/-- Drop one trailing carriage return (Rust `str::lines` behaviour). -/
def stripCr (cs : List Char) : List Char :=
  match cs.getLast? with
  | some '\r' => cs.dropLast
  | _ => cs

/-- Rust `str::lines`: split on newlines, excluding a trailing empty line. -/
def rustLines (s : String) : List String :=
  let segs := splitOnChar '\n' s.data
  let segs :=
    match segs.getLast? with
    | some [] => segs.dropLast
    | _ => segs
  segs.map fun cs => String.mk (stripCr cs)

/-- Rust `str::trim`. -/
def trimStr (s : String) : String :=
  String.mk (((s.data.dropWhile Char.isWhitespace).reverse.dropWhile
    Char.isWhitespace).reverse)

/-- Accumulator pass of `wsTokens`; `cur` holds the current token reversed. -/
def wsTokensAux (cur : List Char) : List Char → List (List Char)
  | [] => if cur.isEmpty then [] else [cur.reverse]
  | c :: rest =>
    if c.isWhitespace then
      if cur.isEmpty then wsTokensAux [] rest
      else cur.reverse :: wsTokensAux [] rest
    else wsTokensAux (c :: cur) rest

/-- Rust `str::split_whitespace`: maximal non-whitespace runs. -/
def wsTokens (cs : List Char) : List (List Char) := wsTokensAux [] cs

/-- Tokens of a process-table line (Rust `split_whitespace` collected). -/
def splitWhitespaceStr (s : String) : List String :=
  (wsTokens s.data).map fun cs => String.mk cs

/-- Substring test on character lists (Rust `str::contains(&str)`). -/
def listContainsSub (pat : List Char) : List Char → Bool
  | [] => pat.isEmpty
  | c :: t => pat.isPrefixOf (c :: t) || listContainsSub pat t

/-- Rust `str::contains` for a string pattern. -/
def strContains (hay pat : String) : Bool := listContainsSub pat.data hay.data

/-- ASCII model of Rust `str::to_lowercase`. -/
def toLowerStr (s : String) : String := String.mk (s.data.map Char.toLower)

/-- Segment after the last `:` (Rust `addr.rsplit(':').next()`), the whole
string when there is no colon. -/
def afterLastColon (cs : List Char) : List Char :=
  ((cs.reverse.takeWhile fun c => c ≠ ':').reverse)

/-- Prefix before the last `:` (Rust `&s[..s.rfind(':').unwrap_or(0)]`). -/
def beforeLastColon (cs : List Char) : List Char :=
  (((cs.reverse.dropWhile fun c => c ≠ ':').drop 1).reverse)

/-! ## Local collector parsing (src/port/local.rs) -/

/-- The `extract_port`: parse the segment after the last colon as a `u16`. -/
def extract_port (addr : String) : Option Nat :=
  parseU16? (String.mk (afterLastColon addr.data))

/-- Stable sort by `local_port` (the `sort_by_key` of `parse_lsof_fields`). -/
def sortByPort : List PortEntry → List PortEntry :=
  sortEntriesBy fun a b => decide (a.local_port ≤ b.local_port)

/-- Helper of `dedupByPort`: `a` is the last retained entry; drop each
following entry whose port equals `a`'s. -/
def dedupByPortAux (a : PortEntry) : List PortEntry → List PortEntry
  | [] => [a]
  | b :: rest =>
    if b.local_port = a.local_port then dedupByPortAux a rest
    else a :: dedupByPortAux b rest

/-- Rust `Vec::dedup_by_key(|e| e.local_port)`: remove all but the first of
consecutive entries with equal port. -/
def dedupByPort : List PortEntry → List PortEntry
  | [] => []
  | a :: rest => dedupByPortAux a rest

/-- Record built for an `n` field line of the lsof listing. -/
def lsofEntry (pid : Option Nat) (cmd : Option String) (port : Nat)
    (remote_mode : Bool) : PortEntry :=
  ⟨PortSource.Local, port, none, none, cmd.getD "", pid, none, none, none,
    remote_mode, false⟩

/-- One line of the `lsof -Fcpn` field listing, threading the current pid
and command through the fold state. -/
def lsofStep (remote_mode : Bool)
    (st : Option Nat × Option String × List PortEntry) (line : String) :
    Option Nat × Option String × List PortEntry :=
  match line.data with
  | [] => st
  | c :: rest =>
    let value := String.mk rest
    if c = 'p' then (parseU32? value, st.2.1, st.2.2)
    else if c = 'c' then (st.1, some value, st.2.2)
    else if c = 'n' then
      match extract_port value with
      | some port =>
          (st.1, st.2.1, st.2.2 ++ [lsofEntry st.1 st.2.1 port remote_mode])
      | none => st
    else st

/-- The `parse_lsof_fields`: fold the field lines, then sort by port and drop
consecutive duplicate ports keeping the first occurrence. -/
def parse_lsof_fields (output : String) (remote_mode : Bool) : List PortEntry :=
  let st := (rustLines output).foldl (lsofStep remote_mode) (none, none, [])
  dedupByPort (sortByPort st.2.2)

/-- C4 fails on the code: on the lsof field listing `p1\ncnode\nn*:0` the
parser emits a record with `local_port = 0` — the trailing segment `0`
parses as a valid `u16` and, unlike every other parser in the crate,
`parse_lsof_fields` has no `port > 0` guard. -/
theorem c4_lsof_emits_port_zero :
    (parse_lsof_fields "p1\ncnode\nn*:0\n" false).map (fun e => e.local_port) =
      [0] := by decide

/-! ## SSH collector host extraction (src/port/ssh.rs) -/

/-- Basename of a token (Rust `t.rsplit('/').next().unwrap_or(t)`). -/
def afterLastSlash (t : String) : String :=
  match (splitOnChar '/' t.data).getLast? with
  | some x => String.mk x
  | none => t

/-- Rust `t.starts_with('-')`. -/
def startsWithDash (t : String) : Bool :=
  match t.data with
  | c :: _ => c == '-'
  | [] => false

/-- Rust `t.contains(':')`. -/
def containsColon (t : String) : Bool := t.data.contains ':'

/-- Tokens after the first token whose basename is `ssh`; `none` when no
such token exists (the `?` on `position` in the source). -/
def sshArgs? (line : String) : Option (List String) :=
  match (splitWhitespaceStr line).findIdx? (fun t => afterLastSlash t == "ssh") with
  | none => none
  | some pos => some ((splitWhitespaceStr line).drop (pos + 1))

/-- The `extract_ssh_host`: find the first token whose basename is `ssh`, take
the tokens after it, and return the final one when it neither begins with
`-` nor contains `:`. -/
def extract_ssh_host (line : String) : Option String :=
  match sshArgs? line with
  | none => none
  | some args =>
    match args.getLast? with
    | none => none
    | some lastTok =>
      if !startsWithDash lastTok && !containsColon lastTok then some lastTok
      else none

/-- The selection rule as the specification words it: among the tokens
following the `ssh` invocation, the last one that neither begins with `-`
nor contains `:`.  Kept separate from `extract_ssh_host` (which is the
source translation) so the two can be compared. -/
def spec_last_plain_host (line : String) : Option String :=
  match sshArgs? line with
  | none => none
  | some args =>
    (args.filter (fun t => !startsWithDash t && !containsColon t)).getLast?

/-- C5 fails on the code: on a line whose trailing token is a flag, the
code returns no host even though a qualifying host token (`bastion`)
precedes it, because `extract_ssh_host` inspects only the final token. -/
theorem c5_counterexample_trailing_flag :
    extract_ssh_host "user 12345 0:00 ssh -L 9000:localhost:80 bastion -v" = none ∧
    spec_last_plain_host "user 12345 0:00 ssh -L 9000:localhost:80 bastion -v" =
      some "bastion" := by decide

theorem filter_getLast?_of_getLast? (q : String → Bool) :
    ∀ {args : List String} {t : String},
      args.getLast? = some t → q t = true →
      (args.filter q).getLast? = some t := by
  intro args
  induction args with
  | nil => intro t h _; simp at h
  | cons a as ih =>
      intro t h hq
      cases as with
      | nil =>
          simp only [List.getLast?_singleton, Option.some.injEq] at h
          subst h
          simp [List.filter, hq]
      | cons b bs =>
          rw [List.getLast?_cons_cons] at h
          have htail := ih h hq
          rw [List.filter_cons]
          split
          · have hne : (b :: bs).filter q ≠ [] := by
              intro hnil
              rw [hnil] at htail
              simp at htail
            cases hfe : (b :: bs).filter q with
            | nil => exact absurd hfe hne
            | cons x xs =>
                rw [hfe] at htail
                rw [List.getLast?_cons_cons]
                exact htail
          · exact htail

/-- The qualifying-token test of the heuristic. -/
def plainHostTok (t : String) : Bool := !startsWithDash t && !containsColon t

/-- Decision the code makes on the argument tokens: inspect only the
final one. -/
def lastTokenPick (args : List String) : Option String :=
  match args.getLast? with
  | none => none
  | some lastTok => if plainHostTok lastTok then some lastTok else none

/-- Decision the spec words describe: the last qualifying token. -/
def specTokenPick (args : List String) : Option String :=
  (args.filter plainHostTok).getLast?

theorem lastTokenPick_eq_extract (line : String) :
    extract_ssh_host line =
      (match sshArgs? line with
       | none => none
       | some args => lastTokenPick args) := by
  unfold extract_ssh_host lastTokenPick plainHostTok
  cases sshArgs? line <;> rfl

theorem specTokenPick_eq_spec (line : String) :
    spec_last_plain_host line =
      (match sshArgs? line with
       | none => none
       | some args => specTokenPick args) := by
  unfold spec_last_plain_host specTokenPick plainHostTok
  cases sshArgs? line <;> rfl

theorem lastTokenPick_sound {args : List String} {h : String}
    (hex : lastTokenPick args = some h) : specTokenPick args = some h := by
  unfold lastTokenPick at hex
  cases hlast : args.getLast? with
  | none => rw [hlast] at hex; exact Option.noConfusion hex
  | some lastTok =>
      rw [hlast] at hex
      have hex' : (if plainHostTok lastTok = true then some lastTok else none) =
          some h := hex
      by_cases hq : plainHostTok lastTok = true
      · rw [if_pos hq] at hex'
        have heq : lastTok = h := Option.some.inj hex'
        subst heq
        exact filter_getLast?_of_getLast? plainHostTok hlast hq
      · rw [if_neg hq] at hex'
        exact Option.noConfusion hex'

theorem specTokenPick_none {args : List String}
    (h : specTokenPick args = none) : lastTokenPick args = none := by
  unfold specTokenPick at h
  unfold lastTokenPick
  cases hlast : args.getLast? with
  | none => rfl
  | some lastTok =>
      by_cases hq : plainHostTok lastTok = true
      · exfalso
        have hft := filter_getLast?_of_getLast? plainHostTok hlast hq
        rw [h] at hft
        exact Option.noConfusion hft
      · simp [hq]

/-- C5 amended: the extraction inspects only the final token after the
`ssh` invocation — it returns that token exactly when it neither begins
with `-` nor contains `:` (in which case it is also the spec's last
qualifying token), and returns no host otherwise, in particular whenever
no qualifying token exists at all. -/
theorem c5_last_token_extraction :
    (∀ (line : String) (h : String), extract_ssh_host line = some h →
      spec_last_plain_host line = some h) ∧
    (∀ line : String, spec_last_plain_host line = none →
      extract_ssh_host line = none) := by
  constructor
  · intro line h hex
    rw [lastTokenPick_eq_extract] at hex
    rw [specTokenPick_eq_spec]
    cases hargs : sshArgs? line with
    | none => rw [hargs] at hex; exact Option.noConfusion hex
    | some args =>
        rw [hargs] at hex
        exact lastTokenPick_sound hex
  · intro line h
    rw [specTokenPick_eq_spec] at h
    rw [lastTokenPick_eq_extract]
    cases hargs : sshArgs? line with
    | none => rfl
    | some args =>
        rw [hargs] at h
        exact specTokenPick_none h

/-- Witness for C5's amended theorem: on a plain forward line the code's
host is the spec's last qualifying token, and a line whose trailing
tokens all disqualify yields no host. -/
theorem c5_last_token_extraction_witness :
    spec_last_plain_host "user 1 ssh -f -N -L 9000:localhost:80 myserver" =
      some "myserver" ∧
    extract_ssh_host "user 1 ssh -L 9000:localhost:80" = none :=
  ⟨c5_last_token_extraction.1 "user 1 ssh -f -N -L 9000:localhost:80 myserver"
      "myserver" (by decide),
   c5_last_token_extraction.2 "user 1 ssh -L 9000:localhost:80" (by decide)⟩

/-! ## Docker host-level collector parsing (src/port/docker.rs)

The port-mapping pattern
`(?:[\d.:]+:)?(\d+)(?:-(\d+))?->(\d+)(?:-(\d+))?/tcp`
is embedded as a hand-rolled matcher with the regex crate's leftmost-first
greedy semantics: the optional address prefix backtracks from the longest
class run, the digit groups are maximal (no shorter digit run can ever
satisfy the following literal), and matches are scanned left to right and
non-overlapping as `captures_iter` does. -/

/-- Characters of the `[\d.:]` class. -/
def isClassChar (c : Char) : Bool := c.isDigit || c == '.' || c == ':'

/-- Capture groups of one port-mapping match. -/
structure RegexCaps where
  c1 : List Char
  c2 : Option (List Char)
  c3 : List Char
  c4 : Option (List Char)
deriving DecidableEq, Repr

/-- Match `(\d+)(?:-(\d+))?->(\d+)(?:-(\d+))?/tcp` at the head of the
input, returning captures and the rest.  The optional groups prefer
presence; a present group and an absent one can never both lead to a
full match, so no backtracking across them is needed. -/
def matchTail (cs : List Char) : Option (RegexCaps × List Char) :=
  let d1 := cs.takeWhile Char.isDigit
  let r1 := cs.dropWhile Char.isDigit
  if d1.isEmpty then none
  else
    let step2 : Option (List Char) × List Char :=
      match r1 with
      | '-' :: r2 =>
        let d2 := r2.takeWhile Char.isDigit
        if d2.isEmpty then (none, r1) else (some d2, r2.dropWhile Char.isDigit)
      | _ => (none, r1)
    match step2.2 with
    | '-' :: '>' :: r4 =>
      let d3 := r4.takeWhile Char.isDigit
      let r5 := r4.dropWhile Char.isDigit
      if d3.isEmpty then none
      else
        let step4 : Option (List Char) × List Char :=
          match r5 with
          | '-' :: r6 =>
            let d4 := r6.takeWhile Char.isDigit
            if d4.isEmpty then (none, r5) else (some d4, r6.dropWhile Char.isDigit)
          | _ => (none, r5)
        match step4.2 with
        | '/' :: 't' :: 'c' :: 'p' :: rem => some (⟨d1, step2.1, d3, step4.1⟩, rem)
        | _ => none
    | _ => none

/-- Greedy backtracking over the optional `[\d.:]+:` prefix: try the class
part at length `t`, `t-1`, …, `1` (each requires a `:` right after), then
the prefix absent. -/
def tryPrefixAux (cs : List Char) : Nat → Option (RegexCaps × List Char)
  | 0 => matchTail cs
  | t + 1 =>
    match
      (match cs.drop (t + 1) with
       | ':' :: rest => matchTail rest
       | _ => none) with
    | some r => some r
    | none => tryPrefixAux cs t

/-- Match the full pattern at the head of the input. -/
def matchAt (cs : List Char) : Option (RegexCaps × List Char) :=
  tryPrefixAux cs (cs.takeWhile isClassChar).length

/-- Scan for successive non-overlapping matches (`captures_iter`); the
fuel equals the input length, which every step strictly consumes. -/
def scanAux : Nat → List Char → List RegexCaps
  | 0, _ => []
  | _ + 1, [] => []
  | fuel + 1, c :: rest =>
    match matchAt (c :: rest) with
    | some (caps, rem) => caps :: scanAux fuel rem
    | none => scanAux fuel rest

/-- All matches of the port-mapping pattern in a ports field. -/
def scanCaps (cs : List Char) : List RegexCaps := scanAux cs.length cs

/-- Record pushed by `parse_docker_ps` for one local/remote port pair. -/
def dockerEntry (remote_mode : Bool) (container_id container_name : String)
    (lp rp : Nat) : PortEntry :=
  ⟨PortSource.Docker, lp, some container_name, some rp, container_name, none,
    some container_id, some container_name, none, remote_mode, false⟩

/-- The `for i in 0..count` expansion loop of the range branch, threading
the per-line `seen_ports` set; an entry is pushed only when the local port
is positive and newly seen. -/
def emitRange (remote_mode : Bool) (container_id container_name : String) :
    Nat → Nat → Nat → List Nat → List PortEntry × List Nat
  | 0, _, _, seen => ([], seen)
  | count + 1, lp, rp, seen =>
    if lp > 0 ∧ lp ∉ seen then
      let r := emitRange remote_mode container_id container_name count
        (lp + 1) (rp + 1) (lp :: seen)
      (dockerEntry remote_mode container_id container_name lp rp :: r.1, r.2)
    else
      emitRange remote_mode container_id container_name count (lp + 1) (rp + 1) seen

/-- One capture of the ports field: the double-range branch expands to
`min` of the span lengths many pairs (with `u16` wrap-around on the
`+ 1`), every other shape is a single mapping. -/
def processCap (remote_mode : Bool) (container_id container_name : String)
    (cap : RegexCaps) (seen : List Nat) : List PortEntry × List Nat :=
  let local_start := (parseU16? (String.mk cap.c1)).getD 0
  let local_end := cap.c2.bind fun s => parseU16? (String.mk s)
  let remote_start := (parseU16? (String.mk cap.c3)).getD 0
  let remote_end := cap.c4.bind fun s => parseU16? (String.mk s)
  let single : List PortEntry × List Nat :=
    if local_start > 0 ∧ local_start ∉ seen then
      ([dockerEntry remote_mode container_id container_name local_start remote_start],
        local_start :: seen)
    else ([], seen)
  match local_end, remote_end with
  | some le, some re =>
    if le ≥ local_start ∧ re ≥ remote_start then
      emitRange remote_mode container_id container_name
        (min ((le - local_start + 1) % 65536) ((re - remote_start + 1) % 65536))
        local_start remote_start seen
    else single
  | _, _ => single

/-- All captures of one line's ports field, left to right, sharing one
`seen_ports` set. -/
def processCaps (remote_mode : Bool) (container_id container_name : String) :
    List RegexCaps → List Nat → List PortEntry
  | [], _ => []
  | cap :: caps, seen =>
    let r := processCap remote_mode container_id container_name cap seen
    r.1 ++ processCaps remote_mode container_id container_name caps r.2

/-- One line of `docker ps` output: tab-separated id, name and ports. -/
def parseDockerLine (remote_mode : Bool) (line : String) : List PortEntry :=
  if (trimStr line).isEmpty then []
  else
    let parts := splitOnChar '\t' line.data
    if parts.length < 3 then []
    else
      processCaps remote_mode (String.mk (parts.getD 0 []))
        (String.mk (parts.getD 1 [])) (scanCaps (parts.getD 2 [])) []

/-- The `parse_docker_ps` over the whole listing. -/
def parse_docker_ps (output : String) (remote_mode : Bool) : List PortEntry :=
  ((rustLines output).map (parseDockerLine remote_mode)).flatten

theorem emitRange_inv (rm : Bool) (cid cn : String) :
    ∀ (count lp rp : Nat) (seen : List Nat),
      ((emitRange rm cid cn count lp rp seen).1.map fun e => e.local_port).Nodup ∧
      (∀ p ∈ (emitRange rm cid cn count lp rp seen).1.map fun e => e.local_port,
        p ∉ seen) ∧
      (∀ p ∈ seen, p ∈ (emitRange rm cid cn count lp rp seen).2) ∧
      (∀ p ∈ (emitRange rm cid cn count lp rp seen).1.map fun e => e.local_port,
        p ∈ (emitRange rm cid cn count lp rp seen).2) := by
  intro count
  induction count with
  | zero => intro lp rp seen; simp [emitRange]
  | succ n ih =>
      intro lp rp seen
      by_cases hc : lp > 0 ∧ lp ∉ seen
      · obtain ⟨ihn, ihs, ihsub, ihin⟩ := ih (lp + 1) (rp + 1) (lp :: seen)
        simp only [emitRange, if_pos hc, List.map_cons, List.nodup_cons,
          List.mem_cons, List.mem_map]
        refine ⟨⟨?_, ihn⟩, ?_, ?_, ?_⟩
        · intro hmem
          have := ihs lp (by simpa [dockerEntry] using hmem)
          simp at this
        · rintro p (hp | hp)
          · subst hp; exact hc.2
          · intro hps
            exact ihs p (by simpa using hp) (List.mem_cons_of_mem _ hps)
        · intro p hp
          exact ihsub p (List.mem_cons_of_mem _ hp)
        · rintro p (hp | hp)
          · rw [hp]
            exact ihsub _ (List.mem_cons_self _ _)
          · exact ihin p (by simpa using hp)
      · obtain ⟨ihn, ihs, ihsub, ihin⟩ := ih (lp + 1) (rp + 1) seen
        simp only [emitRange, if_neg hc]
        exact ⟨ihn, ihs, ihsub, ihin⟩

theorem processCap_inv (rm : Bool) (cid cn : String) (cap : RegexCaps)
    (seen : List Nat) :
    ((processCap rm cid cn cap seen).1.map fun e => e.local_port).Nodup ∧
    (∀ p ∈ (processCap rm cid cn cap seen).1.map fun e => e.local_port,
      p ∉ seen) ∧
    (∀ p ∈ seen, p ∈ (processCap rm cid cn cap seen).2) ∧
    (∀ p ∈ (processCap rm cid cn cap seen).1.map fun e => e.local_port,
      p ∈ (processCap rm cid cn cap seen).2) := by
  have hsingle :
      ∀ ls rs : Nat,
        (((if ls > 0 ∧ ls ∉ seen then
            ([dockerEntry rm cid cn ls rs], ls :: seen)
          else (([] : List PortEntry), seen)) :
            List PortEntry × List Nat).1.map (fun e => e.local_port)).Nodup ∧
        (∀ p ∈ ((if ls > 0 ∧ ls ∉ seen then
            ([dockerEntry rm cid cn ls rs], ls :: seen)
          else (([] : List PortEntry), seen)) :
            List PortEntry × List Nat).1.map fun e => e.local_port, p ∉ seen) ∧
        (∀ p ∈ seen, p ∈ ((if ls > 0 ∧ ls ∉ seen then
            ([dockerEntry rm cid cn ls rs], ls :: seen)
          else (([] : List PortEntry), seen)) :
            List PortEntry × List Nat).2) ∧
        (∀ p ∈ ((if ls > 0 ∧ ls ∉ seen then
            ([dockerEntry rm cid cn ls rs], ls :: seen)
          else (([] : List PortEntry), seen)) :
            List PortEntry × List Nat).1.map fun e => e.local_port,
          p ∈ ((if ls > 0 ∧ ls ∉ seen then
            ([dockerEntry rm cid cn ls rs], ls :: seen)
          else (([] : List PortEntry), seen)) :
            List PortEntry × List Nat).2) := by
    intro ls rs
    by_cases hc : ls > 0 ∧ ls ∉ seen
    · simp only [if_pos hc, List.map_cons, List.map_nil, List.nodup_cons,
        List.not_mem_nil, not_false_eq_true, List.nodup_nil, and_true,
        List.mem_singleton, List.mem_cons, dockerEntry, true_and]
      refine ⟨?_, ?_, ?_⟩
      · intro p hp
        rcases hp with h | h
        · rw [h]
          exact hc.2
        · exact h.elim
      · exact fun p hp => Or.inr hp
      · intro p hp
        rcases hp with h | h
        · exact Or.inl h
        · exact h.elim
    · simp [if_neg hc]
  unfold processCap
  cases hle : cap.c2.bind (fun s => parseU16? (String.mk s)) with
  | none => exact hsingle _ _
  | some le =>
      cases hre : cap.c4.bind (fun s => parseU16? (String.mk s)) with
      | none => exact hsingle _ _
      | some re =>
          by_cases hg : le ≥ (parseU16? (String.mk cap.c1)).getD 0 ∧
              re ≥ (parseU16? (String.mk cap.c3)).getD 0
          · simpa [if_pos hg] using emitRange_inv rm cid cn _ _ _ seen
          · simpa [if_neg hg] using hsingle _ _

theorem processCaps_nodup (rm : Bool) (cid cn : String) :
    ∀ (caps : List RegexCaps) (seen : List Nat),
      ((processCaps rm cid cn caps seen).map fun e => e.local_port).Nodup ∧
      (∀ p ∈ (processCaps rm cid cn caps seen).map fun e => e.local_port,
        p ∉ seen) := by
  intro caps
  induction caps with
  | nil => intro seen; simp [processCaps]
  | cons cap caps ih =>
      intro seen
      obtain ⟨hn1, hs1, hsub1, hin1⟩ := processCap_inv rm cid cn cap seen
      obtain ⟨hn2, hs2⟩ := ih (processCap rm cid cn cap seen).2
      simp only [processCaps, List.map_append]
      constructor
      · refine List.Nodup.append hn1 hn2 ?_
        intro p hp1 hp2
        exact hs2 p hp2 (hin1 p hp1)
      · intro p hp
        rcases List.mem_append.mp hp with hp | hp
        · exact hs1 p hp
        · intro hps
          exact hs2 p hp (hsub1 p hps)

theorem parseU16?_le {s : String} {n : Nat} (h : parseU16? s = some n) :
    n ≤ 65535 := by
  unfold parseU16? parseBounded? at h
  cases hp : parseDecNat? s with
  | none => rw [hp] at h; exact Option.noConfusion h
  | some m =>
      rw [hp] at h
      simp only [Option.some_bind] at h
      by_cases hb : m ≤ 65535
      · rw [if_pos hb] at h
        cases h
        exact hb
      · rw [if_neg hb] at h
        exact Option.noConfusion h

theorem emitRange_pairs (rm : Bool) (cid cn : String) :
    ∀ (count lp rp : Nat) (seen : List Nat), 1 ≤ lp → (∀ p ∈ seen, p < lp) →
      (emitRange rm cid cn count lp rp seen).1.map
          (fun e => (e.local_port, e.remote_port)) =
        (List.range count).map fun i => (lp + i, some (rp + i)) := by
  intro count
  induction count with
  | zero => intro lp rp seen _ _; simp [emitRange]
  | succ n ih =>
      intro lp rp seen hlp hseen
      have hc : lp > 0 ∧ lp ∉ seen := by
        refine ⟨hlp, fun hmem => ?_⟩
        exact absurd (hseen lp hmem) (by omega)
      have hrec := ih (lp + 1) (rp + 1) (lp :: seen) (by omega) ?seenlt
      case seenlt =>
        intro p hp
        rcases List.mem_cons.mp hp with hp | hp
        · omega
        · have := hseen p hp; omega
      have hgoal : (emitRange rm cid cn (n + 1) lp rp seen).1 =
          dockerEntry rm cid cn lp rp ::
            (emitRange rm cid cn n (lp + 1) (rp + 1) (lp :: seen)).1 := by
        simp [emitRange, if_pos hc]
      rw [hgoal, List.map_cons, hrec, List.range_succ_eq_map, List.map_cons,
        List.map_map]
      refine List.cons_eq_cons.mpr ⟨?_, ?_⟩
      · simp [dockerEntry]
      · apply List.map_congr_left
        intro i _
        have e1 : lp + 1 + i = lp + (i + 1) := by omega
        have e2 : rp + 1 + i = rp + (i + 1) := by omega
        simp [Function.comp_apply, Nat.succ_eq_add_one, e1, e2]

/-- C8: a double-range port mapping expands to `min` of the two span
lengths records pairing `local_start + i` with `remote_start + i`; within
one container line every local port yields at most one record; and the
spec's concrete vectors parse accordingly, including the collapse of the
IPv4 and `::`-prefixed IPv6 mappings of one port. -/
theorem c8_docker_range_expansion :
    ((parse_docker_ps "abc123\tweb\t0.0.0.0:3000-3001->3000-3001/tcp" false).map
        (fun e => (e.local_port, e.remote_port)) =
      [(3000, some 3000), (3001, some 3001)]) ∧
    ((parse_docker_ps
        "abc123\tpostgres\t0.0.0.0:5432->5432/tcp, :::5432->5432/tcp" false).map
        (fun e => e.local_port) = [5432]) ∧
    (∀ (remote_mode : Bool) (line : String),
      ((parseDockerLine remote_mode line).map fun e => e.local_port).Nodup) ∧
    (∀ (rm : Bool) (cid cn : String) (s1 s2 s3 s4 : List Char)
        (ls le rs re : Nat),
      parseU16? (String.mk s1) = some ls → parseU16? (String.mk s2) = some le →
      parseU16? (String.mk s3) = some rs → parseU16? (String.mk s4) = some re →
      1 ≤ ls → ls ≤ le → 1 ≤ rs → rs ≤ re →
      (processCap rm cid cn ⟨s1, some s2, s3, some s4⟩ []).1.map
          (fun e => (e.local_port, e.remote_port)) =
        (List.range (min (le - ls + 1) (re - rs + 1))).map
          fun i => (ls + i, some (rs + i))) := by
  refine ⟨by decide, by decide, ?_, ?_⟩
  · intro remote_mode line
    unfold parseDockerLine
    by_cases h1 : (trimStr line).isEmpty
    · simp [h1]
    · simp only [h1, Bool.false_eq_true, if_false]
      by_cases h2 : (splitOnChar '\t' line.data).length < 3
      · simp [h2]
      · simp only [h2, if_false]
        exact (processCaps_nodup remote_mode _ _ _ []).1
  · intro rm cid cn s1 s2 s3 s4 ls le rs re h1 h2 h3 h4 hls hlele hrs hrere
    unfold processCap
    simp only [h1, h2, h3, h4, Option.some_bind, Option.getD_some]
    rw [if_pos ⟨hlele, hrere⟩]
    have hle65 : le ≤ 65535 := parseU16?_le h2
    have hre65 : re ≤ 65535 := parseU16?_le h4
    have hm1 : (le - ls + 1) % 65536 = le - ls + 1 := Nat.mod_eq_of_lt (by omega)
    have hm2 : (re - rs + 1) % 65536 = re - rs + 1 := Nat.mod_eq_of_lt (by omega)
    rw [hm1, hm2]
    exact emitRange_pairs rm cid cn _ ls rs [] hls (by simp)

/-- Witness for C8's universally quantified parts at the spec's concrete
range `3000-3001->3000-3001`. -/
theorem c8_docker_range_expansion_witness :
    (processCap false "abc123" "web"
        ⟨"3000".data, some "3001".data, "3000".data, some "3001".data⟩ []).1.map
        (fun e => (e.local_port, e.remote_port)) =
      (List.range (min (3001 - 3000 + 1) (3001 - 3000 + 1))).map
        fun i => (3000 + i, some (3000 + i)) :=
  c8_docker_range_expansion.2.2.2 false "abc123" "web"
    "3000".data "3001".data "3000".data "3001".data 3000 3001 3000 3001
    (by decide) (by decide) (by decide) (by decide)
    (by decide) (by decide) (by decide) (by decide)

/-! ## Container-interior collector parsing (src/port/docker.rs,
`parse_ss_output`) -/

/-- Rust `s.starts_with(pre)` for a string pattern. -/
def startsWithStr (s pre : String) : Bool := pre.data.isPrefixOf s.data

/-- First index where the pattern occurs (Rust `str::find(&str)`). -/
def findSubIdx (pat : List Char) : List Char → Option Nat
  | [] => if pat.isEmpty then some 0 else none
  | c :: t =>
    if pat.isPrefixOf (c :: t) then some 0
    else (findSubIdx pat t).map (· + 1)

/-- Process name recovery from the trailing `Process` column: the quoted
identifier inside `(("`…`"`, else the container name. -/
def ssProcessName (fields : List String) (container_name : String) : String :=
  if fields.length > 5 then
    let pf := (String.intercalate " " (fields.drop 5)).data
    match findSubIdx ['(', '(', '"'] pf with
    | some start =>
      match (pf.drop (start + 3)).findIdx? (fun c => c == '"') with
      | some stop => String.mk ((pf.drop (start + 3)).take stop)
      | none => container_name
    | none => container_name
  else container_name

/-- Record built for one LISTEN row of the `ss -tln` table. -/
def ssEntry (container_name : String) (port : Nat) (process_name : String)
    (is_loopback : Bool) : PortEntry :=
  ⟨PortSource.Docker, port, some container_name, some port, process_name,
    none, none, some container_name, none, true, is_loopback⟩

/-- Line loop of `parse_ss_output`, threading the `seen_ports` set: skip
headers and non-LISTEN rows, extract the port from the trailing colon
segment (discarding 0), classify loopback binds, and dedup IPv4/IPv6 rows
of one port. -/
def ssLines (container_name : String) : List String → List Nat → List PortEntry
  | [], _ => []
  | line :: rest, seen =>
    let trimmed := trimStr line
    if trimmed.isEmpty || startsWithStr trimmed "State" then
      ssLines container_name rest seen
    else if !startsWithStr trimmed "LISTEN" then
      ssLines container_name rest seen
    else
      let fields := splitWhitespaceStr trimmed
      if fields.length < 4 then ssLines container_name rest seen
      else
        let local_addr := (fields.getD 3 "").data
        match parseU16? (String.mk (afterLastColon local_addr)) with
        | some port =>
          if port > 0 then
            let bind_addr := String.mk (beforeLastColon local_addr)
            let is_loopback := bind_addr == "127.0.0.1" || bind_addr == "[::1]"
            if seen.contains port then ssLines container_name rest seen
            else
              ssEntry container_name port (ssProcessName fields container_name)
                  is_loopback ::
                ssLines container_name rest (port :: seen)
          else ssLines container_name rest seen
        | none => ssLines container_name rest seen

/-- The `parse_ss_output` over the whole table. -/
def parse_ss_output (output : String) (container_name : String) :
    List PortEntry :=
  ssLines container_name (rustLines output) []

/-! ## Collector error handling (src/port/local.rs, src/port/docker.rs)

The outcome of running the external command is passed in explicitly:
either the spawn failed (binary missing, transport unreachable) or the
process exited with a success flag and captured stdout/stderr. -/

/-- Outcome of one external command execution. -/
inductive CmdOutcome where
  | spawnError
  | exited (success : Bool) (stdout : String) (stderr : String)
deriving DecidableEq, Repr

/-- Whether an `anyhow::Result` is `Ok`. -/
def exceptIsOk (x : Except String (List PortEntry)) : Bool :=
  match x with
  | Except.ok _ => true
  | Except.error _ => false

/-- The `local::collect`: the `?` on `Command::output` propagates a spawn
error; the exit status is never inspected and stdout is parsed as is. -/
def local_collect (remote_mode : Bool) : CmdOutcome →
    Except String (List PortEntry)
  | CmdOutcome.spawnError => Except.error "failed to run lsof"
  | CmdOutcome.exited _ out _ => Except.ok (parse_lsof_fields out remote_mode)

/-- The `docker::collect`: a spawn error returns `Ok(vec![])` (docker not
installed), and so does a non-zero exit (daemon not running). -/
def docker_collect (remote_mode : Bool) : CmdOutcome →
    Except String (List PortEntry)
  | CmdOutcome.spawnError => Except.ok []
  | CmdOutcome.exited false _ _ => Except.ok []
  | CmdOutcome.exited true out _ => Except.ok (parse_docker_ps out remote_mode)

/-- The `docker::collect_from_container`: both a spawn error and a non-zero
exit bail with an error. -/
def collect_from_container (container : String) : CmdOutcome →
    Except String (List PortEntry)
  | CmdOutcome.spawnError => Except.error "Failed to run ss in container"
  | CmdOutcome.exited false _ stderr =>
      Except.error ("ss command failed in container " ++ container ++ ": " ++
        trimStr stderr)
  | CmdOutcome.exited true out _ =>
      Except.ok (parse_ss_output out container)

/-- C3 fails on the code: the container-interior collector returns an
error (not `Ok([])`) when the command cannot be spawned or exits
non-zero, and the Local collector propagates a spawn error. -/
theorem c3_counterexample_collector_errors :
    exceptIsOk (collect_from_container "web" CmdOutcome.spawnError) = false ∧
    exceptIsOk (collect_from_container "web"
      (CmdOutcome.exited false "" "no such container")) = false ∧
    exceptIsOk (local_collect false CmdOutcome.spawnError) = false := by
  decide

/-- C3 amended: only the Docker host-level collector returns `Ok` with an
empty list on every command failure; the Local collector returns `Ok`
with the parse of whatever stdout it got on a non-zero exit but
propagates spawn errors as `Err`, and the container-interior collector
returns `Err` on both spawn failure and non-zero exit. -/
theorem c3_collector_failure_semantics :
    ∀ (remote_mode : Bool) (out err container : String),
      docker_collect remote_mode CmdOutcome.spawnError = Except.ok [] ∧
      docker_collect remote_mode (CmdOutcome.exited false out err) =
        Except.ok [] ∧
      exceptIsOk (local_collect remote_mode CmdOutcome.spawnError) = false ∧
      local_collect remote_mode (CmdOutcome.exited false out err) =
        Except.ok (parse_lsof_fields out remote_mode) ∧
      exceptIsOk (collect_from_container container CmdOutcome.spawnError) =
        false ∧
      exceptIsOk (collect_from_container container
        (CmdOutcome.exited false out err)) = false ∧
      collect_from_container container (CmdOutcome.exited true out err) =
        Except.ok (parse_ss_output out container) := by
  intro remote_mode out err container
  exact ⟨rfl, rfl, rfl, rfl, rfl, rfl, rfl⟩

/-! ## Forward draft validation (src/app.rs, `ForwardInput`) -/

/-- The forward-draft input (struct `ForwardInput`): all fields are raw
strings while editing. -/
structure ForwardInput where
  local_port : String
  remote_host : String
  remote_port : String
  ssh_host : String
  active_field : ForwardField
deriving DecidableEq, Repr

/-- The `is_local_port_valid`: non-empty and parses as `u16`. -/
def is_local_port_valid (i : ForwardInput) : Bool :=
  !i.local_port.isEmpty && (parseU16? i.local_port).isSome

/-- The `is_remote_host_valid`: non-blank after trimming. -/
def is_remote_host_valid (i : ForwardInput) : Bool :=
  !(trimStr i.remote_host).isEmpty

/-- The `is_remote_port_valid`: non-empty and parses as `u16`. -/
def is_remote_port_valid (i : ForwardInput) : Bool :=
  !i.remote_port.isEmpty && (parseU16? i.remote_port).isSome

/-- The `is_ssh_host_valid`: non-blank after trimming. -/
def is_ssh_host_valid (i : ForwardInput) : Bool :=
  !(trimStr i.ssh_host).isEmpty

/-- The `is_valid`: conjunction of the four field predicates. -/
def forward_is_valid (i : ForwardInput) : Bool :=
  is_local_port_valid i && is_remote_host_valid i &&
    is_remote_port_valid i && is_ssh_host_valid i

/-- C6 fails on the code: a draft whose `local_port` is the string `0` is
fully valid — `"0".parse::<u16>()` succeeds, so validity admits 0 even
though 0 is outside 1–65535. -/
theorem c6_counterexample_port_zero_valid :
    is_local_port_valid ⟨"0", "localhost", "80", "srv", ForwardField.LocalPort⟩ =
      true ∧
    forward_is_valid ⟨"0", "localhost", "80", "srv", ForwardField.LocalPort⟩ =
      true ∧
    parseDecNat? "0" = some 0 := by decide

theorem parseDecNat?_empty : parseDecNat? "" = none := rfl

theorem parseU16?_isSome_iff (s : String) :
    (parseU16? s).isSome = true ↔
      ∃ n : Nat, parseDecNat? s = some n ∧ n ≤ 65535 := by
  unfold parseU16? parseBounded?
  cases hp : parseDecNat? s with
  | none => simp
  | some m =>
      simp only [Option.some_bind]
      by_cases hb : m ≤ 65535
      · simp [if_pos hb, hb]
      · simp only [if_neg hb, Option.isSome_none, Bool.false_eq_true,
          false_iff]
        rintro ⟨n, hn, hle⟩
        cases hn
        exact hb hle

theorem parseDecNat?_ne_empty {s : String} {n : Nat}
    (h : parseDecNat? s = some n) : s.isEmpty = false := by
  by_cases he : s.isEmpty = true
  · have hs : s = "" := (String.isEmpty_iff s).mp he
    rw [hs, parseDecNat?_empty] at h
    exact Option.noConfusion h
  · exact Bool.eq_false_iff.mpr he

/-- C6 amended: a port field is valid exactly when it parses as a decimal
integer at most 65535 — the `u16` range 0–65535, not 1–65535; in
particular the string `0` is accepted. -/
theorem c6_port_field_validity :
    ∀ i : ForwardInput,
      (is_local_port_valid i = true ↔
        ∃ n : Nat, parseDecNat? i.local_port = some n ∧ n ≤ 65535) ∧
      (is_remote_port_valid i = true ↔
        ∃ n : Nat, parseDecNat? i.remote_port = some n ∧ n ≤ 65535) ∧
      (forward_is_valid i = true ↔
        is_local_port_valid i = true ∧ is_remote_host_valid i = true ∧
        is_remote_port_valid i = true ∧ is_ssh_host_valid i = true) := by
  intro i
  refine ⟨?_, ?_, by simp [forward_is_valid, and_assoc]⟩
  · unfold is_local_port_valid
    rw [Bool.and_eq_true]
    constructor
    · rintro ⟨_, hp⟩
      exact (parseU16?_isSome_iff _).mp hp
    · rintro ⟨n, hn, hle⟩
      exact ⟨by simp [parseDecNat?_ne_empty hn],
        (parseU16?_isSome_iff _).mpr ⟨n, hn, hle⟩⟩
  · unfold is_remote_port_valid
    rw [Bool.and_eq_true]
    constructor
    · rintro ⟨_, hp⟩
      exact (parseU16?_isSome_iff _).mp hp
    · rintro ⟨n, hn, hle⟩
      exact ⟨by simp [parseDecNat?_ne_empty hn],
        (parseU16?_isSome_iff _).mpr ⟨n, hn, hle⟩⟩

/-! ## Session state: view projection and selection (src/app.rs) -/

/-- The source filter (enum `Filter`; named `AppFilter` here since
Mathlib already declares `Filter`). -/
inductive AppFilter where
  | All
  | Local
  | Ssh
  | Docker
deriving DecidableEq, Repr

/-- The slice of `App` state read and written by `apply_filter`,
`set_entries`, `set_filter` and the cursor moves; the remaining `App`
fields do not participate in these functions. -/
structure AppModel where
  entries : List PortEntry
  filtered_entries : List PortEntry
  selected : Nat
  filter : AppFilter
  search_query : String
deriving DecidableEq, Repr

/-- The filter-and-search predicate of `apply_filter`: the source must
match the active filter, and the lowercased query (when non-empty) must
occur in the lowercased process name, the port's decimal string, or the
lowercased remote host. -/
def entryMatches (filter : AppFilter) (search_query : String) (e : PortEntry) :
    Bool :=
  let source_match :=
    match filter with
    | AppFilter.All => true
    | AppFilter.Local => e.source == PortSource.Local
    | AppFilter.Ssh => e.source == PortSource.Ssh
    | AppFilter.Docker => e.source == PortSource.Docker
  let search_match :=
    if search_query.isEmpty then true
    else
      let query := toLowerStr search_query
      strContains (toLowerStr e.process_name) query ||
        strContains (toString e.local_port) query ||
        (match e.remote_host with
         | some h => strContains (toLowerStr h) query
         | none => false)
  source_match && search_match

/-- The `App::apply_filter`: recompute the view, then clamp the selection to
`len - 1` (saturating, hence 0 on an empty view) when it is out of range. -/
def apply_filter (a : AppModel) : AppModel :=
  let fe := a.entries.filter (entryMatches a.filter a.search_query)
  let sel := if a.selected ≥ fe.length then fe.length - 1 else a.selected
  { a with filtered_entries := fe, selected := sel }

/-- The `App::set_entries`: replace the records and recompute the view. -/
def set_entries (a : AppModel) (entries : List PortEntry) : AppModel :=
  apply_filter { a with entries := entries }

/-- The `App::set_filter`: change the filter and recompute the view. -/
def set_filter (a : AppModel) (filter : AppFilter) : AppModel :=
  apply_filter { a with filter := filter }

/-- The `App::next`: wrap forward on a non-empty view. -/
def selection_next (a : AppModel) : AppModel :=
  if !a.filtered_entries.isEmpty then
    { a with selected := (a.selected + 1) % a.filtered_entries.length }
  else a

/-- The `App::previous`: `checked_sub(1)` wraps 0 to the last index on a
non-empty view. -/
def selection_previous (a : AppModel) : AppModel :=
  if !a.filtered_entries.isEmpty then
    { a with selected :=
        if a.selected = 0 then a.filtered_entries.length - 1
        else a.selected - 1 }
  else a

/-- The `App::first`. -/
def selection_first (a : AppModel) : AppModel := { a with selected := 0 }

/-- The `App::last`. -/
def selection_last (a : AppModel) : AppModel :=
  if !a.filtered_entries.isEmpty then
    { a with selected := a.filtered_entries.length - 1 }
  else a

theorem apply_filter_clamp (a : AppModel) :
    ((apply_filter a).filtered_entries = [] → (apply_filter a).selected = 0) ∧
    ((apply_filter a).filtered_entries ≠ [] →
      (apply_filter a).selected < (apply_filter a).filtered_entries.length) := by
  unfold apply_filter
  constructor
  · intro hnil
    simp only at hnil ⊢
    rw [hnil]
    simp
  · intro hne
    simp only at hne ⊢
    have hlen : 0 < (a.entries.filter
        (entryMatches a.filter a.search_query)).length :=
      List.length_pos.mpr hne
    by_cases hsel : a.selected ≥ (a.entries.filter
        (entryMatches a.filter a.search_query)).length
    · rw [if_pos hsel]; omega
    · rw [if_neg hsel]; omega

/-- C9: after every view recomputation — a direct `apply_filter` (filter
change, search update) or `set_entries` replacing the records — the
selection is strictly below the view length when the view is non-empty
and 0 when it is empty. -/
theorem c9_selection_clamped :
    ∀ (a : AppModel) (entries : List PortEntry) (filter : AppFilter),
      ((apply_filter a).filtered_entries = [] →
        (apply_filter a).selected = 0) ∧
      ((apply_filter a).filtered_entries ≠ [] →
        (apply_filter a).selected < (apply_filter a).filtered_entries.length) ∧
      ((set_entries a entries).filtered_entries = [] →
        (set_entries a entries).selected = 0) ∧
      ((set_entries a entries).filtered_entries ≠ [] →
        (set_entries a entries).selected <
          (set_entries a entries).filtered_entries.length) ∧
      ((set_filter a filter).filtered_entries = [] →
        (set_filter a filter).selected = 0) ∧
      ((set_filter a filter).filtered_entries ≠ [] →
        (set_filter a filter).selected <
          (set_filter a filter).filtered_entries.length) := by
  intro a entries filter
  exact ⟨(apply_filter_clamp a).1, (apply_filter_clamp a).2,
    (apply_filter_clamp _).1, (apply_filter_clamp _).2,
    (apply_filter_clamp _).1, (apply_filter_clamp _).2⟩

/-- State used to witness the selection claims: one matching record and an
out-of-range selection. -/
def appWitness : AppModel :=
  ⟨[make_entry PortSource.Local 3000], [make_entry PortSource.Local 3000], 5,
    AppFilter.All, ""⟩

/-- Witness for C9: on a state with one matching record and selection 5,
recomputation clamps the selection below the view length. -/
theorem c9_selection_clamped_witness :
    (apply_filter appWitness).selected <
      (apply_filter appWitness).filtered_entries.length :=
  (c9_selection_clamped appWitness [] AppFilter.All).2.1 (by decide)

theorem selection_next_sel {a : AppModel} (hne : a.filtered_entries ≠ []) :
    (selection_next a).selected =
      (a.selected + 1) % a.filtered_entries.length := by
  have hie : a.filtered_entries.isEmpty = false := by
    simp [List.isEmpty_iff, hne]
  simp [selection_next, hie]

theorem selection_previous_sel {a : AppModel} (hne : a.filtered_entries ≠ []) :
    (selection_previous a).selected =
      if a.selected = 0 then a.filtered_entries.length - 1
      else a.selected - 1 := by
  have hie : a.filtered_entries.isEmpty = false := by
    simp [List.isEmpty_iff, hne]
  simp [selection_previous, hie]

/-- C10: on a non-empty view `next` is `(selected + 1) mod len` and, from
an in-bounds selection, `previous` is `(selected - 1) mod len` (0 wraps to
the last index); both stay in bounds; on an empty view `next`, `previous`
and `last` leave the state unchanged, and `first` always selects 0. -/
theorem c10_selection_navigation :
    ∀ a : AppModel,
      (a.filtered_entries ≠ [] →
        (selection_next a).selected =
          (a.selected + 1) % a.filtered_entries.length) ∧
      (a.filtered_entries ≠ [] → a.selected < a.filtered_entries.length →
        ((selection_previous a).selected : Int) =
          ((a.selected : Int) - 1) % (a.filtered_entries.length : Int)) ∧
      (a.filtered_entries ≠ [] → a.selected < a.filtered_entries.length →
        (selection_next a).selected < a.filtered_entries.length ∧
        (selection_previous a).selected < a.filtered_entries.length) ∧
      (a.filtered_entries = [] →
        selection_next a = a ∧ selection_previous a = a ∧
        selection_last a = a) ∧
      (selection_first a).selected = 0 := by
  intro a
  refine ⟨fun hne => selection_next_sel hne, ?_, ?_, ?_, rfl⟩
  · intro hne hsel
    have hlen : 0 < a.filtered_entries.length := List.length_pos.mpr hne
    rw [selection_previous_sel hne]
    by_cases h0 : a.selected = 0
    · rw [if_pos h0, h0, Nat.cast_zero]
      have hneg : ((0 : Int) - 1) % (a.filtered_entries.length : Int) =
          ((a.filtered_entries.length : Int) - 1) %
            (a.filtered_entries.length : Int) := by
        conv_lhs => rw [show (0 : Int) - 1 =
          ((a.filtered_entries.length : Int) - 1) +
            (a.filtered_entries.length : Int) * (-1) by ring]
        rw [Int.add_mul_emod_self_left]
      have hred : ((a.filtered_entries.length : Int) - 1) %
          (a.filtered_entries.length : Int) =
            (a.filtered_entries.length : Int) - 1 :=
        Int.emod_eq_of_lt (by omega) (by omega)
      rw [hneg, hred]
      omega
    · rw [if_neg h0]
      have hred : ((a.selected : Int) - 1) % (a.filtered_entries.length : Int) =
          (a.selected : Int) - 1 :=
        Int.emod_eq_of_lt (by omega) (by omega)
      rw [hred]
      omega
  · intro hne hsel
    have hlen : 0 < a.filtered_entries.length := List.length_pos.mpr hne
    constructor
    · rw [selection_next_sel hne]
      exact Nat.mod_lt _ hlen
    · rw [selection_previous_sel hne]
      by_cases h0 : a.selected = 0
      · rw [if_pos h0]
        omega
      · rw [if_neg h0]
        omega
  · intro hnil
    have hie : a.filtered_entries.isEmpty = true := by simp [hnil]
    refine ⟨?_, ?_, ?_⟩
    · simp [selection_next, hie]
    · simp [selection_previous, hie]
    · simp [selection_last, hie]

/-- Witness for C10 on a two-record view with selection 0: `next` moves to
`1 % 2` and `previous` wraps to the last index. -/
theorem c10_selection_navigation_witness :
    (selection_next ⟨[], [make_entry PortSource.Local 1,
        make_entry PortSource.Ssh 2], 0, AppFilter.All, ""⟩).selected =
      (0 + 1) % 2 ∧
    (selection_first ⟨[], [], 0, AppFilter.All, ""⟩).selected = 0 :=
  ⟨(c10_selection_navigation ⟨[], [make_entry PortSource.Local 1,
      make_entry PortSource.Ssh 2], 0, AppFilter.All, ""⟩).1 (by decide),
   (c10_selection_navigation ⟨[], [], 0, AppFilter.All, ""⟩).2.2.2.2⟩
